import Mathlib

/-!
Verification of the trending-detection core of `news_bot.py`
(keyword extraction and greedy clustering of near-duplicate headlines).

The embedding follows the Python source:

* `extract_keywords` models `extract_keywords(title)`
  (`re.findall(r'\w+', title.lower())` filtered by stop words and
  length, collected into a set);
* `detect_trending` models `detect_trending(articles)` with its
  first-fit clustering loop, the stable descending sort by cluster
  size (`article_clusters.sort(key=lambda x: len(x), reverse=True)`)
  and the fallbacks.

Machine arithmetic note: the source compares the integer `overlap`
against the Python float `max(2, len(keywords) * 0.4)`.  The IEEE
double closest to `0.4` is `0.4 * (1 + 2^-54)`, so `n * 0.4` computes
to `(2n/5) * (1 + 2^-54)` rounded; when `5 ∣ 2n` the absolute error
`(2n/5) * 2^-54` is strictly below the half-ulp `2^(e-53)` of the
integer `2n/5 ∈ [2^e, 2^(e+1))`, hence the product is exactly `2n/5`;
otherwise `2n/5` is at distance ≥ 1/5 from every integer while the
rounding error is astronomically smaller.  Therefore for the integer
`overlap` the comparison `overlap >= max(2, n * 0.4)` is exactly
`2 ≤ overlap ∧ 2 * n ≤ 5 * overlap`, which is how `accepts` is
stated below (over exact arithmetic, no floor).
-/

/-- An article record as produced by `fetch_news` and consumed by
`detect_trending`: the clustering logic only ever reads `title`. -/
structure Article where
  title : String
  link : String
  source : String
  category : String
  published : Option String
deriving DecidableEq, Repr

/-- The fixed stop-word list of `extract_keywords`. -/
def stopWords : List String :=
  ["in", "on", "at", "the", "a", "an", "and", "or", "but", "of",
   "to", "for", "with", "from", "by"]

/-- A word character in the sense of the regex `\w` (letter, digit or
underscore; the inputs at issue are ASCII, where Lean's
`Char.isAlphanum` coincides with Python's Unicode-aware `\w`). -/
def isWordChar (c : Char) : Bool :=
  c.isAlphanum || c == '_'

/-- One step of splitting a character list into maximal runs of word
characters, processed right to left: the state is the run currently
being grown on the left, plus the completed runs to the right. -/
def wordRunsStep (c : Char) (st : List Char × List (List Char)) :
    List Char × List (List Char) :=
  if isWordChar c then (c :: st.1, st.2)
  else ([], if st.1.isEmpty then st.2 else st.1 :: st.2)

/-- All maximal runs of word characters of a character list, in
order: the embedding of `re.findall(r'\w+', s)`. -/
def wordRuns (l : List Char) : List (List Char) :=
  let st := l.foldr wordRunsStep ([], [])
  if st.1.isEmpty then st.2 else st.1 :: st.2

/-- The `\w+` tokens of a string, in order of occurrence. -/
def wordTokens (s : String) : List String :=
  (wordRuns s.data).map fun r => ⟨r⟩

/-- ASCII lowercasing, the embedding of `str.lower()` on the ASCII
titles at issue. -/
def lowerStr (s : String) : String :=
  ⟨s.data.map Char.toLower⟩

/-- The source's `extract_keywords(title)`: lowercase, tokenize
with `\w+`, keep the tokens that are not stop words and have length
`> 3`, and return them as a set. -/
def extract_keywords (title : String) : Finset String :=
  ((wordTokens (lowerStr title)).filter
    (fun w => !(stopWords.contains w) && decide (3 < w.length))).toFinset

/-- The acceptance test of the clustering loop:
`overlap >= max(2, len(keywords) * 0.4)` over exact arithmetic (see
the header note for why the float comparison is exactly this). -/
def accepts (k kc : Finset String) : Bool :=
  let overlap := (k ∩ kc).card
  decide (2 ≤ overlap) && decide (2 * k.card ≤ 5 * overlap)

/-- Title of a cluster's representative (`cluster[0]['title']`); a
built cluster is never empty, so the `[]` case is unreachable. -/
def clusterTitle : List Article → String
  | [] => ""
  | a :: _ => a.title

/-- Scan the clusters in creation order; append `a` to the first
cluster whose representative's keywords accept `k`, keeping every
other cluster in place, or report `none` if no cluster accepts. -/
def tryInsert (k : Finset String) (a : Article) :
    List (List Article) → Option (List (List Article))
  | [] => none
  | c :: cs =>
    if accepts k (extract_keywords (clusterTitle c)) then
      some ((c ++ [a]) :: cs)
    else
      match tryInsert k a cs with
      | some cs2 => some (c :: cs2)
      | none => none

/-- One iteration of the clustering loop of `detect_trending`: place
`article` into the first accepting cluster, else open a new singleton
cluster at the end. -/
def stepCluster (clusters : List (List Article)) (a : Article) :
    List (List Article) :=
  match tryInsert (extract_keywords a.title) a clusters with
  | some cs => cs
  | none => clusters ++ [[a]]

/-- The full clustering pass over the input, in input order. -/
def buildClusters (articles : List Article) : List (List Article) :=
  articles.foldl stepCluster []

/-- Insert a cluster into a descending-by-size list, before the first
entry that is not strictly larger; together with `sortClustersDesc`
this is the stable descending sort
`article_clusters.sort(key=lambda x: len(x), reverse=True)`. -/
def insertDesc (c : List Article) :
    List (List Article) → List (List Article)
  | [] => [c]
  | d :: ds =>
    if d.length > c.length then d :: insertDesc c ds else c :: d :: ds

/-- Stable sort of the cluster list by descending member count: a
cluster appearing earlier stays before later clusters of equal
size. -/
def sortClustersDesc : List (List Article) → List (List Article)
  | [] => []
  | c :: cs => insertDesc c (sortClustersDesc cs)

/-- The source's `detect_trending(articles)`: `None` on an empty
input; otherwise cluster, sort by descending size, and return the
first member of the leading cluster, falling back to `articles[0]`. -/
def detect_trending (articles : List Article) : Option Article :=
  match articles with
  | [] => none
  | a0 :: _ =>
    match sortClustersDesc (buildClusters articles) with
    | [] => some a0
    | c :: _ => if 1 ≤ c.length then c.head? else some a0

/-- An article with the given title and empty remaining fields, for
concrete test inputs. -/
def mkA (t : String) : Article :=
  ⟨t, "", "", "", none⟩

/-- The spec's wording of the acceptance threshold,
`overlap >= max(2, floor(|k| * 0.4))`, with a floor on the scaled
keyword count (to be compared against the source's `accepts`). -/
def acceptsFloorSpec (k kc : Finset String) : Bool :=
  let overlap := (k ∩ kc).card
  decide (max 2 (2 * k.card / 5) ≤ overlap)

/-- The spec's wording of keyword extraction: the set of `\w+` tokens
of the lowercased title that are not stop words and do not have
length `≤ 3`. -/
def extract_keywords_spec (title : String) : Finset String :=
  (wordTokens (lowerStr title)).toFinset.filter
    (fun w => ¬ w ∈ stopWords ∧ ¬ w.length ≤ 3)

/-- First cluster of maximal size in a cluster list, if any. -/
def pickMax : List (List Article) → Option (List Article)
  | [] => none
  | c :: cs =>
    match pickMax cs with
    | none => some c
    | some d => if d.length > c.length then some d else some c

/-- A later article `a` is rejected by the representative keywords of
an earlier article `b` (the acceptance threshold test fails). -/
abbrev rejects (b a : Article) : Prop :=
  accepts (extract_keywords a.title) (extract_keywords b.title) = false

/-! ### Helper lemmas -/

theorem head_insertDesc (c : List Article) (l : List (List Article)) :
    (insertDesc c l).head? =
      match l.head? with
      | none => some c
      | some d => if d.length > c.length then some d else some c := by
  cases l with
  | nil => rfl
  | cons d ds =>
      by_cases h : d.length > c.length
      · simp [insertDesc, h]
      · simp [insertDesc, h]

theorem head_sortClustersDesc (cs : List (List Article)) :
    (sortClustersDesc cs).head? = pickMax cs := by
  induction cs with
  | nil => rfl
  | cons c cs ih =>
      rw [sortClustersDesc, head_insertDesc, ih, pickMax]

theorem pickMax_eq_none_iff (cs : List (List Article)) :
    pickMax cs = none ↔ cs = [] := by
  cases cs with
  | nil => simp [pickMax]
  | cons c cs =>
      cases h : pickMax cs with
      | none => simp [pickMax, h]
      | some d =>
          simp only [pickMax, h]
          constructor
          · intro hcontra
            by_cases hl : d.length > c.length <;> simp [hl] at hcontra
          · intro hcontra
            exact absurd hcontra (List.cons_ne_nil c cs)

theorem pickMax_spec (cs : List (List Article)) (c : List Article)
    (h : pickMax cs = some c) :
    ∃ l₁ l₂, cs = l₁ ++ c :: l₂ ∧ (∀ d ∈ l₁, d.length < c.length) ∧
      ∀ d ∈ cs, d.length ≤ c.length := by
  induction cs generalizing c with
  | nil => simp [pickMax] at h
  | cons x cs ih =>
      cases hx : pickMax cs with
      | none =>
          have hnil : cs = [] := (pickMax_eq_none_iff cs).mp hx
          subst hnil
          rw [pickMax, hx] at h
          cases h
          exact ⟨[], [], rfl, by simp, by simp⟩
      | some d =>
          rw [pickMax, hx] at h
          have h : (if d.length > x.length then some d else some x) = some c := h
          by_cases hlen : d.length > x.length
          · rw [if_pos hlen] at h
            cases h
            obtain ⟨l₁, l₂, hdec, hlt, hle⟩ := ih c hx
            refine ⟨x :: l₁, l₂, by rw [hdec]; rfl, ?_, ?_⟩
            · intro e he
              rcases List.mem_cons.mp he with rfl | hm
              · exact hlen
              · exact hlt e hm
            · intro e he
              rcases List.mem_cons.mp he with rfl | hm
              · exact Nat.le_of_lt hlen
              · exact hle e hm
          · rw [if_neg hlen] at h
            cases h
            obtain ⟨l₁, l₂, hdec, hlt, hle⟩ := ih d hx
            refine ⟨[], cs, rfl, by simp, ?_⟩
            intro e he
            rcases List.mem_cons.mp he with rfl | hm
            · exact Nat.le_refl _
            · exact Nat.le_trans (hle e hm) (Nat.le_of_not_lt hlen)

theorem tryInsert_some_ne_nil (k : Finset String) (a : Article) :
    ∀ {l cs}, tryInsert k a l = some cs → cs ≠ [] := by
  intro l
  induction l with
  | nil => intro cs h; simp [tryInsert] at h
  | cons c l ih =>
      intro cs h
      rw [tryInsert] at h
      split at h
      · cases h; simp
      · revert h
        cases htr : tryInsert k a l with
        | none => intro h; simp at h
        | some cs2 => intro h; cases h; simp

theorem stepCluster_ne_nil (clusters : List (List Article)) (a : Article) :
    stepCluster clusters a ≠ [] := by
  unfold stepCluster
  cases h : tryInsert (extract_keywords a.title) a clusters with
  | none => simp
  | some cs => exact tryInsert_some_ne_nil _ _ h

theorem foldl_stepCluster_ne_nil (l : List Article)
    (init : List (List Article)) (h : init ≠ []) :
    List.foldl stepCluster init l ≠ [] := by
  induction l generalizing init with
  | nil => exact h
  | cons a l ih => exact ih _ (stepCluster_ne_nil init a)

theorem buildClusters_cons_ne_nil (a : Article) (rest : List Article) :
    buildClusters (a :: rest) ≠ [] := by
  unfold buildClusters
  rw [List.foldl_cons]
  exact foldl_stepCluster_ne_nil rest _ (stepCluster_ne_nil [] a)

theorem tryInsert_cases (k : Finset String) (a : Article)
    (l : List (List Article)) :
    (tryInsert k a l = none ∧
      ∀ c ∈ l, accepts k (extract_keywords (clusterTitle c)) = false) ∨
    (∃ l₁ c l₂, l = l₁ ++ c :: l₂ ∧
      (∀ d ∈ l₁, accepts k (extract_keywords (clusterTitle d)) = false) ∧
      accepts k (extract_keywords (clusterTitle c)) = true ∧
      tryInsert k a l = some (l₁ ++ (c ++ [a]) :: l₂)) := by
  induction l with
  | nil => left; exact ⟨rfl, by simp⟩
  | cons c l ih =>
      by_cases hc : accepts k (extract_keywords (clusterTitle c)) = true
      · right
        exact ⟨[], c, l, rfl, by simp, hc, by rw [tryInsert, if_pos hc]; rfl⟩
      · have hc' : accepts k (extract_keywords (clusterTitle c)) = false :=
          Bool.eq_false_iff.mpr hc
        rcases ih with ⟨hnone, hall⟩ | ⟨l₁, d, l₂, hdec, hfail, hacc, hins⟩
        · left
          constructor
          · rw [tryInsert, if_neg hc, hnone]
          · intro e he
            rcases List.mem_cons.mp he with rfl | hm
            · exact hc'
            · exact hall e hm
        · right
          refine ⟨c :: l₁, d, l₂, by rw [hdec]; rfl, ?_, hacc, ?_⟩
          · intro e he
            rcases List.mem_cons.mp he with rfl | hm
            · exact hc'
            · exact hfail e hm
          · rw [tryInsert, if_neg hc, hins]
            rfl

theorem tryInsert_none_of_all_reject (k : Finset String) (a : Article)
    (l : List (List Article))
    (h : ∀ c ∈ l, accepts k (extract_keywords (clusterTitle c)) = false) :
    tryInsert k a l = none := by
  induction l with
  | nil => rfl
  | cons c l ih =>
      rw [tryInsert, if_neg (by simp [h c (List.mem_cons_self c l)]),
        ih fun e he => h e (List.mem_cons_of_mem _ he)]

theorem foldl_stepCluster_singletons (l : List Article) (p : List Article)
    (hp : ∀ b ∈ p, ∀ x ∈ l, rejects b x) (hpw : l.Pairwise rejects) :
    List.foldl stepCluster (p.map fun b => [b]) l =
      (p ++ l).map fun b => [b] := by
  induction l generalizing p with
  | nil => simp
  | cons x l ih =>
      rw [List.foldl_cons]
      have hstep : stepCluster (p.map fun b => [b]) x =
          (p ++ [x]).map fun b => [b] := by
        unfold stepCluster
        rw [tryInsert_none_of_all_reject]
        · simp
        · intro c hc
          obtain ⟨b, hb, rfl⟩ := List.mem_map.mp hc
          exact hp b hb x (List.mem_cons_self x l)
      rw [hstep, ih (p ++ [x])]
      · rw [List.append_assoc]
        rfl
      · intro b hb y hy
        rcases List.mem_append.mp hb with h1 | h2
        · exact hp b h1 y (List.mem_cons_of_mem _ hy)
        · rw [List.mem_singleton.mp h2]
          exact (List.pairwise_cons.mp hpw).1 y hy
      · exact (List.pairwise_cons.mp hpw).2

theorem buildClusters_of_pairwise_reject (articles : List Article)
    (h : articles.Pairwise rejects) :
    buildClusters articles = articles.map fun a => [a] := by
  unfold buildClusters
  simpa using foldl_stepCluster_singletons articles [] (by simp) h

theorem sortClustersDesc_singletons (l : List Article) :
    sortClustersDesc (l.map fun a => [a]) = l.map fun a => [a] := by
  induction l with
  | nil => rfl
  | cons a l ih =>
      rw [List.map_cons, sortClustersDesc, ih]
      cases l with
      | nil => rfl
      | cons b l2 =>
          rw [List.map_cons, insertDesc, if_neg (by simp)]

theorem tryInsert_mem_ne_nil (k : Finset String) (a : Article) :
    ∀ {l cs}, (∀ c ∈ l, c ≠ []) → tryInsert k a l = some cs →
      ∀ c ∈ cs, c ≠ [] := by
  intro l
  induction l with
  | nil => intro cs _ h; simp [tryInsert] at h
  | cons c l ih =>
      intro cs hne h
      rw [tryInsert] at h
      split at h
      · cases h
        intro e he
        rcases List.mem_cons.mp he with rfl | hm
        · simp
        · exact hne e (List.mem_cons_of_mem _ hm)
      · revert h
        cases htr : tryInsert k a l with
        | none => intro h; simp at h
        | some cs2 =>
            intro h
            cases h
            intro e he
            rcases List.mem_cons.mp he with rfl | hm
            · exact hne e (List.mem_cons_self e l)
            · exact ih (fun d hd => hne d (List.mem_cons_of_mem _ hd)) htr e hm

theorem stepCluster_mem_ne_nil (clusters : List (List Article)) (a : Article)
    (h : ∀ c ∈ clusters, c ≠ []) :
    ∀ c ∈ stepCluster clusters a, c ≠ [] := by
  unfold stepCluster
  cases htr : tryInsert (extract_keywords a.title) a clusters with
  | none =>
      intro c hc
      rcases List.mem_append.mp hc with h1 | h2
      · exact h c h1
      · rw [List.mem_singleton.mp h2]
        simp
  | some cs => exact tryInsert_mem_ne_nil _ _ h htr

theorem buildClusters_mem_ne_nil (articles : List Article) :
    ∀ c ∈ buildClusters articles, c ≠ [] := by
  unfold buildClusters
  suffices H : ∀ (l : List Article) (init : List (List Article)),
      (∀ c ∈ init, c ≠ []) → ∀ c ∈ List.foldl stepCluster init l, c ≠ [] by
    exact H articles [] (by simp)
  intro l
  induction l with
  | nil => intro init h; exact h
  | cons a l ih =>
      intro init h
      exact ih _ (stepCluster_mem_ne_nil init a h)

/-! ### Claim theorems -/

/-- C3 (counterexample): contrary to the claim,
`extract_keywords "A Man In The City"` is not the empty set — the
token "city" has length 4 and is not a stop word, so it survives. -/
theorem C3_city_counterexample :
    extract_keywords "A Man In The City" ≠ (∅ : Finset String) := by
  decide

/-- C3 (amended): `extract_keywords "A Man In The City"` returns the
singleton set containing "city"; every other token ("a", "man", "in",
"the") is a stop word or has length ≤ 3, but "city" (length 4, not a
stop word) is kept. -/
theorem C3_city_keywords :
    extract_keywords "A Man In The City" = {"city"} := by
  decide

/-- C4: `extract_keywords` returns exactly the set of tokens obtained
by lowercasing the title, splitting into maximal runs of word
characters, discarding the fixed stop words and tokens of length ≤ 3;
the example title yields its five keywords and the empty title yields
the empty set. -/
theorem C4_extract_keywords_correct :
    (∀ title, extract_keywords title = extract_keywords_spec title) ∧
    extract_keywords "Hyderabad Metro Expansion Announced Today" =
      {"hyderabad", "metro", "expansion", "announced", "today"} ∧
    extract_keywords "" = (∅ : Finset String) := by
  refine ⟨?_, by decide, by decide⟩
  intro title
  ext w
  simp [extract_keywords, extract_keywords_spec, List.mem_filter,
    Finset.mem_filter, List.mem_toFinset, not_le]

/-- C5: the decision whether an article joins an existing cluster is
a function of the article's keyword set and the keyword set of the
cluster's first member only — changing the later-added members of a
cluster never changes the decision, and appending a member (as the
clustering loop does) never changes the cluster's representative
title. -/
theorem C5_decision_depends_on_representative_only :
    (∀ (k : Finset String) (x : Article) (r1 r2 : List Article),
      accepts k (extract_keywords (clusterTitle (x :: r1))) =
        accepts k (extract_keywords (clusterTitle (x :: r2)))) ∧
    (∀ (x : Article) (r : List Article) (a : Article),
      clusterTitle ((x :: r) ++ [a]) = clusterTitle (x :: r)) := by
  exact ⟨fun _ _ _ _ => rfl, fun _ _ _ => rfl⟩

/-- C6: if an article's keyword set shares at most one keyword with a
cluster representative's keyword set, the acceptance test of the
clustering loop fails — at least 2 shared keywords are always
required, however small the article's own keyword set is. -/
theorem C6_two_shared_keywords_required (k kc : Finset String)
    (h : (k ∩ kc).card ≤ 1) : accepts k kc = false := by
  simp only [accepts, Bool.and_eq_false_iff, decide_eq_false_iff_not, not_le]
  left
  omega

/-- C6 witness: two disjoint keyword sets share 0 ≤ 1 keywords and
are indeed rejected. -/
theorem C6_witness :
    (({"alpha"} ∩ {"bravo"} : Finset String).card ≤ 1) ∧
    accepts {"alpha"} {"bravo"} = false :=
  ⟨by decide, C6_two_shared_keywords_required _ _ (by decide)⟩

/-- C8: `detect_trending` returns the absent value exactly on the
empty article list. -/
theorem C8_none_iff_empty (articles : List Article) :
    detect_trending articles = none ↔ articles = [] := by
  cases articles with
  | nil => simp [detect_trending]
  | cons a rest =>
      simp only [detect_trending]
      cases h : sortClustersDesc (buildClusters (a :: rest)) with
      | nil => simp
      | cons c cs =>
          cases c with
          | nil => simp
          | cons x xs => simp

/-- C9: on a single-article list, `detect_trending` returns that very
article: the lone article forms a singleton cluster, trivially the
largest. -/
theorem C9_singleton_input (X : Article) :
    detect_trending [X] = some X := rfl

set_option maxHeartbeats 8000000 in
/-- C7: on the three-article example — two metro headlines followed
by a cricket headline — clustering yields the two metro articles in
one cluster and the cricket article as a singleton, and
`detect_trending` returns the first metro headline, whatever the
non-title fields of the articles are. -/
theorem C7_metro_example (l1 s1 c1 : String) (p1 : Option String)
    (l2 s2 c2 : String) (p2 : Option String)
    (l3 s3 c3 : String) (p3 : Option String) :
    buildClusters
        [⟨"Telangana CM announces new metro line", l1, s1, c1, p1⟩,
         ⟨"CM announces metro expansion in Telangana", l2, s2, c2, p2⟩,
         ⟨"Local cricket team wins championship", l3, s3, c3, p3⟩] =
      [[⟨"Telangana CM announces new metro line", l1, s1, c1, p1⟩,
        ⟨"CM announces metro expansion in Telangana", l2, s2, c2, p2⟩],
       [⟨"Local cricket team wins championship", l3, s3, c3, p3⟩]] ∧
    detect_trending
        [⟨"Telangana CM announces new metro line", l1, s1, c1, p1⟩,
         ⟨"CM announces metro expansion in Telangana", l2, s2, c2, p2⟩,
         ⟨"Local cricket team wins championship", l3, s3, c3, p3⟩] =
      some ⟨"Telangana CM announces new metro line", l1, s1, c1, p1⟩ := by
  have hb : buildClusters
      [⟨"Telangana CM announces new metro line", l1, s1, c1, p1⟩,
       ⟨"CM announces metro expansion in Telangana", l2, s2, c2, p2⟩,
       ⟨"Local cricket team wins championship", l3, s3, c3, p3⟩] =
      [[⟨"Telangana CM announces new metro line", l1, s1, c1, p1⟩,
        ⟨"CM announces metro expansion in Telangana", l2, s2, c2, p2⟩],
       [⟨"Local cricket team wins championship", l3, s3, c3, p3⟩]] := rfl
  refine ⟨hb, ?_⟩
  simp only [detect_trending, hb, sortClustersDesc, insertDesc]
  rfl

/-- C2: on any non-empty input, `detect_trending` returns the first
member of a largest cluster, and that cluster is the earliest-created
largest one: every cluster before it in creation order is strictly
smaller, and no cluster anywhere is larger (the stable descending
sort keeps creation order among equal sizes). -/
theorem C2_returns_first_of_largest (a : Article) (rest : List Article) :
    ∃ c l₁ l₂,
      buildClusters (a :: rest) = l₁ ++ c :: l₂ ∧
      (∀ d ∈ l₁, d.length < c.length) ∧
      (∀ d ∈ buildClusters (a :: rest), d.length ≤ c.length) ∧
      detect_trending (a :: rest) = c.head? := by
  cases hp : pickMax (buildClusters (a :: rest)) with
  | none =>
      exact absurd ((pickMax_eq_none_iff _).mp hp)
        (buildClusters_cons_ne_nil a rest)
  | some c =>
      obtain ⟨l₁, l₂, hdec, hlt, hle⟩ := pickMax_spec _ c hp
      refine ⟨c, l₁, l₂, hdec, hlt, hle, ?_⟩
      have hhead : (sortClustersDesc (buildClusters (a :: rest))).head? =
          some c := by
        rw [head_sortClustersDesc, hp]
      have hcne : c ≠ [] := by
        apply buildClusters_mem_ne_nil (a :: rest) c
        rw [hdec]
        exact List.mem_append_right _ (List.mem_cons_self c l₂)
      cases hs : sortClustersDesc (buildClusters (a :: rest)) with
      | nil => rw [hs] at hhead; simp at hhead
      | cons y ys =>
          rw [hs] at hhead
          simp only [List.head?_cons, Option.some.injEq] at hhead
          subst hhead
          simp only [detect_trending, hs]
          rw [if_pos]
          exact Nat.one_le_iff_ne_zero.mpr
            (fun h0 => hcne (List.eq_nil_of_length_eq_zero h0))

/-- C10: when every article's keyword set fails the acceptance test
against every earlier article's keyword set (so the clustering pass
produces only singleton clusters), `detect_trending` returns the
first article of the input: the stable descending sort leaves the
equal-sized singletons in creation order. -/
theorem C10_all_singletons_returns_first (a : Article) (rest : List Article)
    (h : (a :: rest).Pairwise rejects) :
    detect_trending (a :: rest) = some a := by
  have hb := buildClusters_of_pairwise_reject _ h
  have hs := sortClustersDesc_singletons (a :: rest)
  rw [List.map_cons] at hs
  simp [detect_trending, hb, hs]

/-- C10 witness: two articles with disjoint keyword sets reject each
other, and `detect_trending` returns the first one. -/
theorem C10_witness :
    ([mkA "quick zebra runs", mkA "happy mango festival"].Pairwise rejects) ∧
    detect_trending [mkA "quick zebra runs", mkA "happy mango festival"] =
      some (mkA "quick zebra runs") := by
  have hp : [mkA "quick zebra runs",
      mkA "happy mango festival"].Pairwise rejects := by decide
  exact ⟨hp, C10_all_singletons_returns_first _ _ hp⟩

/-- C1 (counterexample): the spec's floor threshold is not the one
the code applies.  The second headline has 6 keywords, 2 of which it
shares with the first; `max(2, floor(6 * 0.4)) = 2 ≤ 2`, so by the
claim it must join the first article's cluster — but the code
compares `2 >= max(2, 2.4)`, which fails, and the clustering pass
leaves the two articles in separate singleton clusters. -/
theorem C1_floor_threshold_counterexample :
    acceptsFloorSpec (extract_keywords "alpha bravo golfing hotels indian juliet")
        (extract_keywords "alpha bravo charlie delta echoes foxtrot") = true ∧
    (extract_keywords "alpha bravo golfing hotels indian juliet" ∩
        extract_keywords "alpha bravo charlie delta echoes foxtrot").card = 2 ∧
    (extract_keywords "alpha bravo golfing hotels indian juliet").card = 6 ∧
    buildClusters [mkA "alpha bravo charlie delta echoes foxtrot",
        mkA "alpha bravo golfing hotels indian juliet"] =
      [[mkA "alpha bravo charlie delta echoes foxtrot"],
       [mkA "alpha bravo golfing hotels indian juliet"]] :=
  ⟨by decide, by decide, by decide, by decide⟩

/-- C1 (amended): every article is appended to the first existing
cluster (in creation order) whose representative keyword set passes
the threshold `overlap >= max(2, |k| * 0.4)` compared exactly —
that is, `2 ≤ overlap` and `5 * overlap ≥ 2 * |k|` (a ceiling, not a
floor, when `0.4 * |k|` is fractional); scanning stops at that first
accepting cluster, and if no cluster accepts, a new singleton cluster
is appended after all existing clusters. -/
theorem C1_first_fit_exact_threshold (clusters : List (List Article))
    (a : Article) :
    (∀ k kc : Finset String, accepts k kc = true ↔
      2 ≤ (k ∩ kc).card ∧ 2 * k.card ≤ 5 * (k ∩ kc).card) ∧
    ((∃ l₁ c l₂, clusters = l₁ ++ c :: l₂ ∧
        (∀ d ∈ l₁, accepts (extract_keywords a.title)
          (extract_keywords (clusterTitle d)) = false) ∧
        accepts (extract_keywords a.title)
          (extract_keywords (clusterTitle c)) = true ∧
        stepCluster clusters a = l₁ ++ (c ++ [a]) :: l₂) ∨
      ((∀ c ∈ clusters, accepts (extract_keywords a.title)
          (extract_keywords (clusterTitle c)) = false) ∧
        stepCluster clusters a = clusters ++ [[a]])) := by
  constructor
  · intro k kc
    simp [accepts]
  · rcases tryInsert_cases (extract_keywords a.title) a clusters with
      ⟨hnone, hall⟩ | ⟨l₁, c, l₂, hdec, hfail, hacc, hins⟩
    · right
      exact ⟨hall, by unfold stepCluster; rw [hnone]⟩
    · left
      exact ⟨l₁, c, l₂, hdec, hfail, hacc, by unfold stepCluster; rw [hins]⟩
